import Mathlib

/-
A shallow embedding of the js-message repository (src/globals/message.js and the
unnamed companion source) in Lean 4.

Data model:
* JavaScript handler functions are identified by reference identity; we model a
  handler reference as a `Nat` identifier, and a handler's observable behaviour
  as an `HAction` looked up in an environment `Nat → HAction`.
* A JS handler array (`Array<Function>`) in which `delete arr[i]` leaves a hole
  is modelled as `List (Option Nat)`: `none` is a hole.  `Array.prototype.push`
  appends, `indexOf`/`lastIndexOf` skip holes, `for (i in list)` with
  `hasOwnProperty` skips holes, and `arr.length` counts holes.
* A JS object used as a map (`Object<string, Array<Function>>`) is modelled as
  an association list `List (String × List (Option Nat))`; all operations act on
  the first entry with a matching key, which coincides with JS objects (whose
  keys are unique).
* `JSON.parse` / `JSON.stringify` are host primitives outside the repository;
  an inbound raw string is represented by its parse outcome: `Except e (name,
  args)` — `.error` when `JSON.parse` would throw, `.ok` with the decoded
  name-headed array otherwise.  Posted messages are represented by their
  decoded content `(name, args)` rather than the serialized string.
* `bindEvent` (include/event.js, not part of this repository) registers one
  more listener per call; the pool state records the number of `bindEvent`
  invocations performed by `ready` in `bindCount`.
* `setTimeout`/`clearTimeout` are modelled in the Synchronization state by a
  handle field (`iSync`) and a pending flag; one elapse step fires a pending
  timer.
-/

namespace JsMessage

/-- Decoded JSON values carried as message arguments (the subset exercised by
the verified properties). -/
inductive Val where
  | vStr (s : String)
  | vNum (i : Int)
deriving DecidableEq, Repr

/-- Observable behaviour of a handler function when invoked: do nothing, call
`register`, call `registerOnce`, or call `post` on the owning pool (the
built-in `onPing` handler posts `evPong`). -/
inductive HAction where
  | funcPure
  | funcReg (n : String) (h : Nat)
  | funcRegOnce (n : String) (h : Nat)
  | funcPost (n : String)
deriving DecidableEq, Repr

/-- A JS handler array: `none` is a hole left by `delete arr[i]`. -/
abbrev HList := List (Option Nat)

/-- A JS object mapping event names to handler arrays. -/
abbrev Handlers := List (String × HList)

/-- Occurrences of handler `h` in a handler array (holes never match, exactly
as `indexOf`/`lastIndexOf` skip holes). -/
def countH : HList → Nat → Nat
  | [], _ => 0
  | x :: xs, h => (if x = some h then 1 else 0) + countH xs h

/-- Property read `map[n]`: the value at the first entry whose key is `n`. -/
def hfind : Handlers → String → Option HList
  | [], _ => none
  | (k, l) :: rest, n => if k = n then some l else hfind rest n

/-- The body shared by `register` and `registerOnce`:
`if (map[n] === undefined) map[n] = [h]; else if (map[n].indexOf(h) < 0)
map[n].push(h);`. -/
def hRegister : Handlers → String → Nat → Handlers
  | [], n, h => [(n, [some h])]
  | (k, l) :: rest, n, h =>
    if k = n then
      (if some h ∈ l then (k, l) :: rest else (k, l ++ [some h]) :: rest)
    else (k, l) :: hRegister rest n h

/-- Key removal `delete map[n]`. -/
def hdel : Handlers → String → Handlers
  | [], _ => []
  | (k, l) :: rest, n => if k = n then rest else (k, l) :: hdel rest n

/-- `delete arr[arr.lastIndexOf(h)]` when `lastIndexOf(h) >= 0`: replace the
last occurrence of `h` with a hole, otherwise leave the array unchanged. -/
def delLast : HList → Nat → HList
  | [], _ => []
  | x :: xs, h =>
    if some h ∈ xs then x :: delLast xs h
    else if x = some h then none :: xs
    else x :: xs

/-- One branch of `unregister` with a handler argument: if `map[n]` exists and
contains `h`, delete `h`'s last index (leaving a hole); reports whether a
removal occurred. -/
def hUnregisterOne : Handlers → String → Nat → Handlers × Bool
  | [], _, _ => ([], false)
  | (k, l) :: rest, n, h =>
    if k = n then
      (if some h ∈ l then ((k, delLast l h) :: rest, true) else ((k, l) :: rest, false))
    else
      let r := hUnregisterOne rest n h
      ((k, l) :: r.1, r.2)

/-- State of `cMessagePool`: persistent handlers, once-handlers, log-exclusion
list, pool name, readiness flag, plus the count of `bindEvent` calls performed
by `ready` (the observable effect on the transport adapter). -/
structure Pool where
  oMessages : Handlers
  oMessagesOnce : Handlers
  aExcludeLog : List String
  sName : String
  bReady : Bool
  bindCount : Nat
deriving DecidableEq, Repr

/-- Identifier of the pool's own bound `onPing` handler (`this.evPing`). -/
def pingHandlerId : Nat := 0

/-- The `cMessagePool` constructor: empty registries, exclusion list seeded
with the two control names, not ready, and the built-in ping handler
registered as a persistent handler for `"evPing"`. -/
def mkPool : Pool :=
  { oMessages := hRegister [] "evPing" pingHandlerId
    oMessagesOnce := []
    aExcludeLog := ["evPing", "evPong"]
    sName := "MessagePool"
    bReady := false
    bindCount := 0 }

/-- `register(sMessage, fnHandler)`. -/
def register (p : Pool) (n : String) (h : Nat) : Pool :=
  { p with oMessages := hRegister p.oMessages n h }

/-- `registerOnce(sMessage, fnHandler)`. -/
def registerOnce (p : Pool) (n : String) (h : Nat) : Pool :=
  { p with oMessagesOnce := hRegister p.oMessagesOnce n h }

/-- The `MessagePool` constructor of the unnamed companion source: empty
registries, seeded exclusion list, name defaulting to `"Unknown"`, not ready.
Unlike `cMessagePool`, it registers NO handler at construction — it only binds
`this.evPing = this.onPing.bind(this)` without registering it.  (Its `oTarget`
field, used only by that source's `send` path, is not carried here.) -/
def mkPoolU (sName : Option String) : Pool :=
  { oMessages := []
    oMessagesOnce := []
    aExcludeLog := ["evPing", "evPong"]
    sName := sName.getD "Unknown"
    bReady := false
    bindCount := 0 }

/-- The handler-registration effect of `MessagePool.synchronize(fnCallback)`
in the unnamed source: `registerOnce('evPong', <fresh closure>)` then
`register('evPing', this.evPing)` — the built-in ping handler is registered
here, not in that constructor.  The ping send and retry timer started by the
subsequent `fnPingPong()` call are the behaviour modelled by `SyncState`. -/
def synchronizeU (p : Pool) (pongClosureId : Nat) : Pool :=
  register (registerOnce p "evPong" pongClosureId) "evPing" pingHandlerId

/-- `unregister(sMessage, fnHandler?)`: with no handler, delete both keys;
with a handler, delete its last index from each array that contains it.
Returns the updated pool and the boolean result. -/
def unregister (p : Pool) (n : String) (h : Option Nat) : Pool × Bool :=
  match h with
  | none =>
    let b1 := (hfind p.oMessages n).isSome
    let b2 := (hfind p.oMessagesOnce n).isSome
    ({ p with oMessages := hdel p.oMessages n, oMessagesOnce := hdel p.oMessagesOnce n },
      b1 || b2)
  | some h =>
    let r1 := hUnregisterOne p.oMessages n h
    let r2 := hUnregisterOne p.oMessagesOnce n h
    ({ p with oMessages := r1.1, oMessagesOnce := r2.1 }, r1.2 || r2.2)

/-- `excludeLog(bReset, ...names)`: optionally reset to the seeded list, then
append each name not already present. -/
def excludeLog (p : Pool) (reset : Bool) (names : List String) : Pool :=
  let base := if reset then ["evPing", "evPong"] else p.aExcludeLog
  { p with aExcludeLog := names.foldl (fun acc x => if x ∈ acc then acc else acc ++ [x]) base }

/-- `has(sMessage)` as written in the source: returns `false` if
`oMessages[n]` is undefined; otherwise evaluates
`oMessages[n].length > 0 || oMessagesOnce[n].length > 0`, where the second
disjunct throws a `TypeError` when `oMessagesOnce[n]` is undefined. -/
def has (p : Pool) (n : String) : Except String Bool :=
  match hfind p.oMessages n with
  | none => Except.ok false
  | some l =>
    if 0 < l.length then Except.ok true
    else
      match hfind p.oMessagesOnce n with
      | none => Except.error "TypeError"
      | some l2 => Except.ok (0 < l2.length)

/-- Whether `has` throws. -/
def hasCrashes (p : Pool) (n : String) : Bool :=
  match has p n with
  | Except.error _ => true
  | Except.ok _ => false

/-- `messageLog(aMessage, sPfx)`: given the decoded array `[n, ...args]`,
produce the log-sink invocations.  Logs nothing when the name is the empty
string (`aMessage[0] || null` is `null` for a falsy head) or is excluded;
otherwise emits one line with the bracketed pool name, the supplied marker and
the event name, followed by the arguments. -/
def messageLog (p : Pool) (n : String) (args : List Val) (sPfx : String) :
    List (String × List Val) :=
  if n ≠ "" ∧ n ∉ p.aExcludeLog then
    [("[" ++ p.sName ++ "]: " ++ sPfx ++ n ++ (if args.length = 0 then "" else " :"), args)]
  else []

/-- Destination of a message handed to the transport during dispatch:
`ownWindow` is `postMessage(platform, ...)` — the pool's own context, the only
destination `post` (and hence `onPing`) can reach, since `post` takes no
target and the receive path ignores the `MessageEvent`'s source; `toWindow w`
is delivery addressed to a specific remote window `w` (what `send` does after
resolving its target — `send` itself reports such posts separately). -/
inductive PostDest where
  | ownWindow
  | toWindow (w : Nat)
deriving DecidableEq, Repr

/-- Output of running a handler array: the pool after all handler side
effects, the invocations performed (handler id with the arguments it was
applied to, in order), and the messages posted by handlers, each with its
destination. -/
structure RunOut where
  pool : Pool
  calls : List (Nat × List Val)
  posts : List (PostDest × String × List Val)
deriving DecidableEq, Repr

/-- Effect of invoking one handler, per its `HAction`.  `funcPost n` is
`this.post(n)`: `postMessage(platform, JSON.stringify([n]))`, a post to the
pool's own window. -/
def applyAction (p : Pool) : HAction → Pool × List (PostDest × String × List Val)
  | HAction.funcPure => (p, [])
  | HAction.funcReg n h => ({ p with oMessages := hRegister p.oMessages n h }, [])
  | HAction.funcRegOnce n h => ({ p with oMessagesOnce := hRegister p.oMessagesOnce n h }, [])
  | HAction.funcPost n => (p, [(PostDest.ownWindow, n, [])])

/-- The dispatch loop `for (let i in list) if (list.hasOwnProperty(i))
list[i|0].apply(null, aMessage)` over a snapshot of a handler array: holes are
skipped, present handlers are invoked in order, threading handler side effects
through the pool. -/
def runList (env : Nat → HAction) (args : List Val) : Pool → HList → RunOut
  | p, [] => { pool := p, calls := [], posts := [] }
  | p, none :: rest => runList env args p rest
  | p, some h :: rest =>
    let pr := applyAction p (env h)
    let out := runList env args pr.1 rest
    { pool := out.pool, calls := (h, args) :: out.calls, posts := pr.2 ++ out.posts }

/-- Output of `recv`/`onMessage`: the resulting pool, handler invocations,
posted messages (with destinations) and log-sink lines. -/
structure RecvOut where
  pool : Pool
  calls : List (Nat × List Val)
  posts : List (PostDest × String × List Val)
  logs : List (String × List Val)
deriving DecidableEq, Repr

/-- The persistent phase of `recv`: `if (this.oMessages[sMessage] !==
undefined)` run the handler list. -/
def recvPers (env : Nat → HAction) (p : Pool) (n : String) (args : List Val) : RunOut :=
  match hfind p.oMessages n with
  | none => { pool := p, calls := [], posts := [] }
  | some l => runList env args p l

/-- The once phase of `recv`: snapshot `this.oMessagesOnce[sMessage]`, delete
the key, then run the snapshot. -/
def recvOnce (env : Nat → HAction) (p : Pool) (n : String) (args : List Val) : RunOut :=
  match hfind p.oMessagesOnce n with
  | none => { pool := p, calls := [], posts := [] }
  | some l => runList env args { p with oMessagesOnce := hdel p.oMessagesOnce n } l

/-- `recv(sMessage, ...va_args)`: log the message unless excluded; run the
persistent handlers for the name; then snapshot `oMessagesOnce[n]`, delete the
key, and run the snapshot. -/
def recv (env : Nat → HAction) (p : Pool) (n : String) (args : List Val) : RecvOut :=
  let logLines : List (String × List Val) :=
    if n ∈ p.aExcludeLog then []
    else [("[" ++ p.sName ++ "]: " ++ n ++ (if args.length = 0 then "" else " :"), args)]
  let out1 := recvPers env p n args
  let out2 := recvOnce env out1.pool n args
  { pool := out2.pool, calls := out1.calls ++ out2.calls,
    posts := out1.posts ++ out2.posts, logs := logLines }

/-- `onMessage(event)`: `JSON.parse(event.data)` is represented by its
outcome.  A parse failure is not caught anywhere in the source, so it
propagates.  On success, if `bReady !== true` the decoded message is only
passed to `messageLog` with the `'SKIP '` marker; otherwise it is dispatched
through `recv`. -/
def onMessage (env : Nat → HAction) (p : Pool) (d : Except String (String × List Val)) :
    Except String RecvOut :=
  match d with
  | Except.error e => Except.error e
  | Except.ok (n, args) =>
    if p.bReady ≠ true then
      Except.ok { pool := p, calls := [], posts := [], logs := messageLog p n args "SKIP " }
    else
      Except.ok (recv env p n args)

/-- Whether an `onMessage` outcome is a normal return (rather than a thrown
exception). -/
def exceptOk (x : Except String RecvOut) : Bool :=
  match x with
  | Except.ok _ => true
  | Except.error _ => false

/-- The `oTarget` argument of `send`: `null`, an `HTMLIFrameElement` (whose
`contentWindow` may be `null`), or a `Window` (windows are identified by
`Nat`). -/
inductive SendTarget where
  | nullTarget
  | iframeTarget (contentWindow : Option Nat)
  | windowTarget (w : Nat)
deriving DecidableEq, Repr

/-- Target resolution at the top of `send`: `null` resolves to
`platform.parent` (an environment fact, possibly absent), an iframe to its
`contentWindow`, a window to itself. -/
def resolveTarget (parentWindow : Option Nat) : SendTarget → Option Nat
  | SendTarget.nullTarget => parentWindow
  | SendTarget.iframeTarget cw => cw
  | SendTarget.windowTarget w => some w

/-- `send(oTarget, sMessage, ...va_args)`: if the resolved window is `null`,
pass the message to `messageLog` with the `'DROP '` marker and do nothing
else; otherwise post the encoded message to that window.  Returns the log
lines and the posts handed to the transport; the pool state is not touched. -/
def send (p : Pool) (parentWindow : Option Nat) (t : SendTarget) (n : String)
    (args : List Val) : List (String × List Val) × List (Nat × String × List Val) :=
  match resolveTarget parentWindow t with
  | none => (messageLog p n args "DROP ", [])
  | some w => ([], [(w, n, args)])

/-- `ready(bReady)`: when the flag changes, store it; on a change to `true`,
call `bindEvent(platform, 'message', this.onMessage.bind(this))` — counted in
`bindCount`. -/
def ready (p : Pool) (b : Bool) : Pool :=
  if p.bReady ≠ b then
    { p with bReady := b, bindCount := if b then p.bindCount + 1 else p.bindCount }
  else p

/-- The environment in which every handler is inert. -/
def pureEnv : Nat → HAction := fun _ => HAction.funcPure

/-- The environment giving the pool's built-in `onPing` handler its source
behaviour `this.post(evPong)`. -/
def envPing : Nat → HAction := fun k =>
  if k = pingHandlerId then HAction.funcPost "evPong" else HAction.funcPure

/-- No handler behaviour in `env` ever registers handler `h` (for any name,
persistently or once). -/
def envAvoidsH (env : Nat → HAction) (h : Nat) : Prop :=
  ∀ k m, env k ≠ HAction.funcReg m h ∧ env k ≠ HAction.funcRegOnce m h

/-- Total number of occurrences of handler `h` across all arrays of a map. -/
def mapCount : Handlers → Nat → Nat
  | [], _ => 0
  | e :: m, h => countH e.2 h + mapCount m h

/-- Handler `h` occurs in no array of the map except possibly at key `n`. -/
def hOffN (m : Handlers) (n : String) (h : Nat) : Prop :=
  ∀ e ∈ m, e.1 ≠ n → countH e.2 h = 0

/-- Every array stored in the map is non-empty (`length` counts holes, as in
JS). -/
def entriesNonEmpty (m : Handlers) : Prop := ∀ e ∈ m, e.2 ≠ []

/-- Number of invocations of handler `h` in an invocation trace. -/
def callCount (h : Nat) : List (Nat × List Val) → Nat
  | [] => 0
  | c :: cs => (if c.1 = h then 1 else 0) + callCount h cs

/-- Dispatch a sequence of inbound ready-state messages, accumulating the
handler invocations. -/
def recvSeq (env : Nat → HAction) : Pool → List (String × List Val) →
    Pool × List (Nat × List Val)
  | p, [] => (p, [])
  | p, (n, args) :: rest =>
    let out := recv env p n args
    let res := recvSeq env out.pool rest
    (res.1, out.calls ++ res.2)

/-- Public API calls on a pool, for reachability of pool states. -/
inductive PoolOp where
  | opInit (n : String)
  | opRegister (n : String) (h : Nat)
  | opRegisterOnce (n : String) (h : Nat)
  | opUnregister (n : String) (h : Option Nat)
  | opExcludeLog (reset : Bool) (names : List String)
  | opRecv (n : String) (args : List Val)
  | opReady (b : Bool)
deriving DecidableEq, Repr

/-- Effect of one API call on the pool state. -/
def execOp (env : Nat → HAction) (p : Pool) : PoolOp → Pool
  | PoolOp.opInit n => { p with sName := n }
  | PoolOp.opRegister n h => register p n h
  | PoolOp.opRegisterOnce n h => registerOnce p n h
  | PoolOp.opUnregister n h => (unregister p n h).1
  | PoolOp.opExcludeLog r names => excludeLog p r names
  | PoolOp.opRecv n args => (recv env p n args).pool
  | PoolOp.opReady b => ready p b

/-- A pool state reached from construction by a sequence of API calls. -/
def execOps (env : Nat → HAction) : Pool → List PoolOp → Pool
  | p, [] => p
  | p, op :: rest => execOps env (execOp env p op) rest

/-- Identifier of a Synchronization session's bound `onPong` handler
(`this.evPong`). -/
def pongHandlerId : Nat := 1

/-- State of a `Synchronization` session: the owning pool, the timer handle
`iSync` (`none` is JS `null`), whether an armed timeout is pending, the number
of pings sent (`send(oTarget, evPing)` calls performed), and whether the
completion callback has been invoked. -/
structure SyncState where
  pool : Pool
  iSync : Option Unit
  pending : Bool
  pings : Nat
  fired : Bool
deriving DecidableEq, Repr

/-- `onSync()`: send `evPing` to the target and arm the retry timer. -/
def syncOnSync (s : SyncState) : SyncState :=
  { s with pings := s.pings + 1, iSync := some (), pending := true }

/-- The `Synchronization` constructor: `registerOnce(evPong, this.evPong)` on
the owning pool, `iSync = null`, then an immediate `onSync()`. -/
def syncCreate (p : Pool) : SyncState :=
  syncOnSync
    { pool := registerOnce p "evPong" pongHandlerId
      iSync := none, pending := false, pings := 0, fired := false }

/-- `onPong()`: clear the pending timeout and invoke the callback.  (The
handle `iSync` is not reset to `null`.) -/
def syncOnPong (s : SyncState) : SyncState :=
  { s with pending := false, fired := true }

/-- One retry interval elapses: a pending timeout fires `onSync` (which sends
another ping and re-arms); with no pending timeout nothing happens.  This is
the whole-session step when the target never responds with a pong. -/
def syncElapse (s : SyncState) : SyncState :=
  if s.pending then syncOnSync { s with pending := false } else s

/-- `k` retry intervals elapse. -/
def syncElapseN : Nat → SyncState → SyncState
  | 0, s => s
  | Nat.succ k, s => syncElapseN k (syncElapse s)

/-- `cancel()`: if `iSync !== null`, clear the timeout, unregister the pong
once-handler and set `iSync = null`; otherwise do nothing. -/
def syncCancel (s : SyncState) : SyncState :=
  match s.iSync with
  | none => s
  | some _ =>
    { s with pending := false
             pool := (unregister s.pool "evPong" (some pongHandlerId)).1
             iSync := none }

theorem countH_append (l1 l2 : HList) (h : Nat) :
    countH (l1 ++ l2) h = countH l1 h + countH l2 h := by
  induction l1 with
  | nil => simp [countH]
  | cons x xs ih => simp [countH, ih]; omega

theorem countH_eq_zero {l : HList} {h : Nat} : countH l h = 0 ↔ some h ∉ l := by
  induction l with
  | nil => simp [countH]
  | cons x xs ih =>
    by_cases hx : x = some h
    · subst hx; simp [countH]
    · simp [countH, hx, ih, Ne.symm hx]

theorem countH_pos_of_mem {l : HList} {h : Nat} (hm : some h ∈ l) : 0 < countH l h := by
  rcases Nat.eq_zero_or_pos (countH l h) with h0 | h0
  · exact absurd (countH_eq_zero.mp h0) (by simp [hm])
  · exact h0

theorem hfind_mem {m : Handlers} {n : String} {l : HList} (hf : hfind m n = some l) :
    (n, l) ∈ m := by
  induction m with
  | nil => simp [hfind] at hf
  | cons e rest ih =>
    obtain ⟨k, l0⟩ := e
    by_cases hk : k = n
    · subst hk
      simp [hfind] at hf
      subst hf
      exact List.mem_cons_self _ _
    · simp [hfind, hk] at hf
      exact List.mem_cons_of_mem _ (ih hf)

theorem mapCount_eq_zero {m : Handlers} {h : Nat} :
    mapCount m h = 0 ↔ ∀ e ∈ m, countH e.2 h = 0 := by
  induction m with
  | nil => simp [mapCount]
  | cons e rest ih => simp [mapCount, ih, Nat.add_eq_zero]

theorem countH_le_mapCount {m : Handlers} {n : String} {l : HList} {h : Nat}
    (hf : hfind m n = some l) : countH l h ≤ mapCount m h := by
  induction m with
  | nil => simp [hfind] at hf
  | cons e rest ih =>
    obtain ⟨k, l0⟩ := e
    by_cases hk : k = n
    · subst hk
      simp [hfind] at hf
      subst hf
      simp [mapCount]
    · simp [hfind, hk] at hf
      simp [mapCount]
      have := ih hf
      omega

theorem hfind_hRegister_self (m : Handlers) (n : String) (h : Nat) :
    ∃ l, hfind (hRegister m n h) n = some l ∧ some h ∈ l := by
  induction m with
  | nil => exact ⟨[some h], by simp [hRegister, hfind]⟩
  | cons e rest ih =>
    obtain ⟨k, l0⟩ := e
    by_cases hk : k = n
    · subst hk
      by_cases hm : some h ∈ l0
      · exact ⟨l0, by simp [hRegister, hm, hfind], hm⟩
      · exact ⟨l0 ++ [some h], by simp [hRegister, hm, hfind], by simp⟩
    · obtain ⟨l, hl, hmem⟩ := ih
      exact ⟨l, by simp [hRegister, hk, hfind, hl], hmem⟩

theorem hfind_hRegister_ne (m : Handlers) {n n' : String} (h : Nat) (hne : n' ≠ n) :
    hfind (hRegister m n h) n' = hfind m n' := by
  induction m with
  | nil => simp [hRegister, hfind, Ne.symm hne]
  | cons e rest ih =>
    obtain ⟨k, l0⟩ := e
    by_cases hk : k = n
    · subst hk
      by_cases hm : some h ∈ l0
      · simp [hRegister, hm]
      · simp [hRegister, hm, hfind, Ne.symm hne]
    · simp [hRegister, hk, hfind, ih]

theorem hRegister_idem (m : Handlers) (n : String) (h : Nat) :
    hRegister (hRegister m n h) n h = hRegister m n h := by
  induction m with
  | nil => simp [hRegister]
  | cons e rest ih =>
    obtain ⟨k, l0⟩ := e
    by_cases hk : k = n
    · subst hk
      by_cases hm : some h ∈ l0
      · simp [hRegister, hm]
      · simp [hRegister, hm]
    · simp [hRegister, hk, ih]

theorem hfind_hRegister_mem_of_mem {m : Handlers} {n : String} {l : HList} {x : Option Nat}
    (hf : hfind m n = some l) (hx : x ∈ l) (k : Nat) :
    ∃ l', hfind (hRegister m n k) n = some l' ∧ x ∈ l' := by
  induction m with
  | nil => simp [hfind] at hf
  | cons e rest ih =>
    obtain ⟨k0, l0⟩ := e
    by_cases hk : k0 = n
    · subst hk
      simp [hfind] at hf
      subst hf
      by_cases hm : some k ∈ l0
      · exact ⟨l0, by simp [hRegister, hm, hfind], hx⟩
      · exact ⟨l0 ++ [some k], by simp [hRegister, hm, hfind], by simp [hx]⟩
    · simp [hfind, hk] at hf
      obtain ⟨l', hl', hmem⟩ := ih hf
      exact ⟨l', by simp [hRegister, hk, hfind, hl'], hmem⟩

theorem mapCount_hRegister_ne (m : Handlers) (n : String) {k h : Nat} (hne : k ≠ h) :
    mapCount (hRegister m n k) h = mapCount m h := by
  induction m with
  | nil => simp [hRegister, mapCount, countH, hne]
  | cons e rest ih =>
    obtain ⟨k0, l0⟩ := e
    by_cases hk : k0 = n
    · subst hk
      by_cases hm : some k ∈ l0
      · simp [hRegister, hm]
      · simp [hRegister, hm, mapCount, countH_append, countH, hne]
    · simp [hRegister, hk, mapCount, ih]

theorem mapCount_hRegister_le (m : Handlers) (n : String) (h : Nat) :
    mapCount (hRegister m n h) h ≤ mapCount m h + 1 := by
  induction m with
  | nil => simp [hRegister, mapCount, countH]
  | cons e rest ih =>
    obtain ⟨k0, l0⟩ := e
    by_cases hk : k0 = n
    · subst hk
      by_cases hm : some h ∈ l0
      · simp [hRegister, hm]
      · simp [hRegister, hm, mapCount, countH_append, countH]
        omega
    · simp [hRegister, hk, mapCount]
      omega

theorem hfind_hdel_mapCount {m : Handlers} {n : String} {l : HList} (h : Nat)
    (hf : hfind m n = some l) :
    mapCount (hdel m n) h + countH l h = mapCount m h := by
  induction m with
  | nil => simp [hfind] at hf
  | cons e rest ih =>
    obtain ⟨k0, l0⟩ := e
    by_cases hk : k0 = n
    · subst hk
      simp [hfind] at hf
      subst hf
      simp [hdel, mapCount]
      omega
    · simp [hfind, hk] at hf
      simp [hdel, hk, mapCount]
      have := ih hf
      omega

theorem hdel_of_hfind_none {m : Handlers} {n : String} (hf : hfind m n = none) :
    hdel m n = m := by
  induction m with
  | nil => simp [hdel]
  | cons e rest ih =>
    obtain ⟨k0, l0⟩ := e
    by_cases hk : k0 = n
    · subst hk; simp [hfind] at hf
    · simp [hfind, hk] at hf
      simp [hdel, hk, ih hf]

theorem hdel_subset {m : Handlers} {n : String} {e : String × HList} (he : e ∈ hdel m n) :
    e ∈ m := by
  induction m with
  | nil => simp [hdel] at he
  | cons e0 rest ih =>
    obtain ⟨k0, l0⟩ := e0
    by_cases hk : k0 = n
    · subst hk
      simp [hdel] at he
      exact List.mem_cons_of_mem _ he
    · simp [hdel, hk] at he
      rcases he with he | he
      · simp [he]
      · exact List.mem_cons_of_mem _ (ih he)

theorem hfind_hRegister_of_none {m : Handlers} {n : String} (h : Nat)
    (hf : hfind m n = none) : hfind (hRegister m n h) n = some [some h] := by
  induction m with
  | nil => simp [hRegister, hfind]
  | cons e rest ih =>
    obtain ⟨k0, l0⟩ := e
    by_cases hk : k0 = n
    · subst hk; simp [hfind] at hf
    · simp [hfind, hk] at hf
      simp [hRegister, hk, hfind, ih hf]

theorem callCount_append (h : Nat) (c1 c2 : List (Nat × List Val)) :
    callCount h (c1 ++ c2) = callCount h c1 + callCount h c2 := by
  induction c1 with
  | nil => simp [callCount]
  | cons c cs ih => simp [callCount, ih]; omega

theorem callCount_filterMap (l : HList) (h : Nat) (args : List Val) :
    callCount h ((l.filterMap id).map (fun k => (k, args))) = countH l h := by
  induction l with
  | nil => simp [callCount, countH]
  | cons x xs ih =>
    cases x with
    | none => simpa [countH] using ih
    | some k => simp [callCount, countH, ih]

theorem runList_calls (env : Nat → HAction) (args : List Val) :
    ∀ (l : HList) (p : Pool),
    (runList env args p l).calls = (l.filterMap id).map (fun k => (k, args)) := by
  intro l
  induction l with
  | nil => intro p; simp [runList]
  | cons x xs ih =>
    intro p
    cases x with
    | none => simpa [runList] using ih p
    | some k => simp [runList, ih]

theorem applyAction_oMessages_mapCount {a : HAction} {h : Nat}
    (ha : ∀ m, a ≠ HAction.funcReg m h) (p : Pool) :
    mapCount (applyAction p a).1.oMessages h = mapCount p.oMessages h := by
  cases a with
  | funcPure => rfl
  | funcRegOnce n k => rfl
  | funcPost n => rfl
  | funcReg n k =>
    have hk : k ≠ h := by
      intro hkh
      subst hkh
      exact ha n rfl
    simpa [applyAction] using mapCount_hRegister_ne p.oMessages n hk

theorem applyAction_oMessagesOnce_mapCount {a : HAction} {h : Nat}
    (ha : ∀ m, a ≠ HAction.funcRegOnce m h) (p : Pool) :
    mapCount (applyAction p a).1.oMessagesOnce h = mapCount p.oMessagesOnce h := by
  cases a with
  | funcPure => rfl
  | funcReg n k => rfl
  | funcPost n => rfl
  | funcRegOnce n k =>
    have hk : k ≠ h := by
      intro hkh
      subst hkh
      exact ha n rfl
    simpa [applyAction] using mapCount_hRegister_ne p.oMessagesOnce n hk

theorem runList_oMessages_mapCount {env : Nat → HAction} {h : Nat}
    (hA : envAvoidsH env h) (args : List Val) :
    ∀ (l : HList) (p : Pool),
    mapCount (runList env args p l).pool.oMessages h = mapCount p.oMessages h := by
  intro l
  induction l with
  | nil => intro p; simp [runList]
  | cons x xs ih =>
    intro p
    cases x with
    | none => simpa [runList] using ih p
    | some k =>
      have h1 := @applyAction_oMessages_mapCount (env k) h
        (fun m => (hA k m).1) p
      simp [runList, ih, h1]

theorem runList_oMessagesOnce_mapCount {env : Nat → HAction} {h : Nat}
    (hA : envAvoidsH env h) (args : List Val) :
    ∀ (l : HList) (p : Pool),
    mapCount (runList env args p l).pool.oMessagesOnce h = mapCount p.oMessagesOnce h := by
  intro l
  induction l with
  | nil => intro p; simp [runList]
  | cons x xs ih =>
    intro p
    cases x with
    | none => simpa [runList] using ih p
    | some k =>
      have h1 := @applyAction_oMessagesOnce_mapCount (env k) h
        (fun m => (hA k m).2) p
      simp [runList, ih, h1]

theorem hOffN_hRegister {m : Handlers} {n n' : String} {k h : Nat}
    (hk : k ≠ h) (hm : hOffN m n h) : hOffN (hRegister m n' k) n h := by
  induction m with
  | nil =>
    intro e he hne
    simp [hRegister] at he
    simp [he, countH, hk]
  | cons e0 rest ih =>
    obtain ⟨k0, l0⟩ := e0
    have hm0 : countH l0 h = 0 ∨ k0 = n := by
      by_cases hc : k0 = n
      · exact Or.inr hc
      · exact Or.inl (hm (k0, l0) (List.mem_cons_self _ _) hc)
    have hmrest : hOffN rest n h := fun e he hne => hm e (List.mem_cons_of_mem _ he) hne
    by_cases hc : k0 = n'
    · subst hc
      by_cases hmem : some k ∈ l0
      · simpa [hRegister, hmem] using hm
      · intro e he hne
        simp [hRegister, hmem] at he
        rcases he with he | he
        · subst he
          simp at hne
          rcases hm0 with h0 | h0
          · simp [countH_append, h0, countH, hk]
          · exact absurd h0 hne
        · exact hmrest e he hne
    · intro e he hne
      simp [hRegister, hc] at he
      rcases he with he | he
      · subst he
        rcases hm0 with h0 | h0
        · exact h0
        · exact absurd h0 (by simpa using hne)
      · exact ih hmrest e he hne

theorem hOffN_hRegister_self {m : Handlers} {n : String} {h : Nat}
    (hm : hOffN m n h) (k : Nat) : hOffN (hRegister m n k) n h := by
  induction m with
  | nil =>
    intro e he hne
    simp [hRegister] at he
    subst he
    simp at hne
  | cons e0 rest ih =>
    obtain ⟨k0, l0⟩ := e0
    have hmrest : hOffN rest n h := fun e he hne => hm e (List.mem_cons_of_mem _ he) hne
    by_cases hc : k0 = n
    · subst hc
      by_cases hmem : some k ∈ l0
      · simpa [hRegister, hmem] using hm
      · intro e he hne
        simp [hRegister, hmem] at he
        rcases he with he | he
        · subst he; simp at hne
        · exact hmrest e he hne
    · intro e he hne
      simp [hRegister, hc] at he
      rcases he with he | he
      · subst he
        exact hm (k0, l0) (List.mem_cons_self _ _) (by simpa using hne)
      · exact ih hmrest e he hne

theorem hOffN_hdel {m : Handlers} {n n' : String} {h : Nat} (hm : hOffN m n h) :
    hOffN (hdel m n') n h :=
  fun e he hne => hm e (hdel_subset he) hne

theorem applyAction_hOffN {a : HAction} {n : String} {h : Nat}
    (ha : ∀ m, a ≠ HAction.funcRegOnce m h) (p : Pool)
    (hm : hOffN p.oMessagesOnce n h) :
    hOffN (applyAction p a).1.oMessagesOnce n h := by
  cases a with
  | funcPure => exact hm
  | funcReg n' k => exact hm
  | funcPost n' => exact hm
  | funcRegOnce n' k =>
    have hk : k ≠ h := by
      intro hkh
      subst hkh
      exact ha n' rfl
    exact hOffN_hRegister hk hm

theorem runList_hOffN {env : Nat → HAction} {n : String} {h : Nat}
    (hA : envAvoidsH env h) (args : List Val) :
    ∀ (l : HList) (p : Pool), hOffN p.oMessagesOnce n h →
    hOffN (runList env args p l).pool.oMessagesOnce n h := by
  intro l
  induction l with
  | nil => intro p hm; simpa [runList] using hm
  | cons x xs ih =>
    intro p hm
    cases x with
    | none => simpa [runList] using ih p hm
    | some k =>
      have h1 := @applyAction_hOffN (env k) n h
        (fun m => (hA k m).2) p hm
      simpa [runList] using ih _ h1

theorem recv_calls_def (env : Nat → HAction) (p : Pool) (n : String) (args : List Val) :
    (recv env p n args).calls =
      (recvPers env p n args).calls ++ (recvOnce env (recvPers env p n args).pool n args).calls :=
  rfl

theorem recv_pool_def (env : Nat → HAction) (p : Pool) (n : String) (args : List Val) :
    (recv env p n args).pool = (recvOnce env (recvPers env p n args).pool n args).pool :=
  rfl

theorem recv_posts_def (env : Nat → HAction) (p : Pool) (n : String) (args : List Val) :
    (recv env p n args).posts =
      (recvPers env p n args).posts ++ (recvOnce env (recvPers env p n args).pool n args).posts :=
  rfl

theorem recv_logs_def (env : Nat → HAction) (p : Pool) (n : String) (args : List Val) :
    (recv env p n args).logs =
      (if n ∈ p.aExcludeLog then []
       else [("[" ++ p.sName ++ "]: " ++ n ++ (if args.length = 0 then "" else " :"), args)]) :=
  rfl

theorem recvPers_calls (env : Nat → HAction) (p : Pool) (n : String) (args : List Val) :
    (recvPers env p n args).calls =
      (((hfind p.oMessages n).getD []).filterMap id).map (fun k => (k, args)) := by
  unfold recvPers
  cases hf : hfind p.oMessages n with
  | none => simp
  | some l => simp [runList_calls]

theorem recvPers_callCount_zero {env : Nat → HAction} {p : Pool} {n : String} {h : Nat}
    (args : List Val) (hpers : mapCount p.oMessages h = 0) :
    callCount h (recvPers env p n args).calls = 0 := by
  rw [recvPers_calls, callCount_filterMap]
  cases hf : hfind p.oMessages n with
  | none => simp [countH]
  | some l =>
    have := @countH_le_mapCount _ _ _ h hf
    simp
    omega

theorem recvPers_oMessages_mapCount {env : Nat → HAction} {h : Nat}
    (hA : envAvoidsH env h) (p : Pool) (n : String) (args : List Val) :
    mapCount (recvPers env p n args).pool.oMessages h = mapCount p.oMessages h := by
  unfold recvPers
  cases hf : hfind p.oMessages n with
  | none => simp
  | some l => simp [runList_oMessages_mapCount hA]

theorem recvPers_oMessagesOnce_mapCount {env : Nat → HAction} {h : Nat}
    (hA : envAvoidsH env h) (p : Pool) (n : String) (args : List Val) :
    mapCount (recvPers env p n args).pool.oMessagesOnce h = mapCount p.oMessagesOnce h := by
  unfold recvPers
  cases hf : hfind p.oMessages n with
  | none => simp
  | some l => simp [runList_oMessagesOnce_mapCount hA]

theorem recvPers_hOffN {env : Nat → HAction} {n0 : String} {h : Nat}
    (hA : envAvoidsH env h) (p : Pool) (n : String) (args : List Val)
    (hoff : hOffN p.oMessagesOnce n0 h) :
    hOffN (recvPers env p n args).pool.oMessagesOnce n0 h := by
  unfold recvPers
  cases hf : hfind p.oMessages n with
  | none => simpa using hoff
  | some l => simpa using runList_hOffN hA args l p hoff

theorem recvOnce_budget {env : Nat → HAction} {h : Nat}
    (hA : envAvoidsH env h) (p : Pool) (n : String) (args : List Val) :
    callCount h (recvOnce env p n args).calls
      + mapCount (recvOnce env p n args).pool.oMessagesOnce h
      = mapCount p.oMessagesOnce h := by
  unfold recvOnce
  cases hf : hfind p.oMessagesOnce n with
  | none => simp [callCount]
  | some l =>
    have hcalls : callCount h (runList env args
        { p with oMessagesOnce := hdel p.oMessagesOnce n } l).calls = countH l h := by
      rw [runList_calls, callCount_filterMap]
    have hpool := runList_oMessagesOnce_mapCount hA args l
      { p with oMessagesOnce := hdel p.oMessagesOnce n }
    have hdelc := hfind_hdel_mapCount h hf
    simp at hpool
    simp [hcalls, hpool]
    omega

theorem recvOnce_oMessages_mapCount {env : Nat → HAction} {h : Nat}
    (hA : envAvoidsH env h) (p : Pool) (n : String) (args : List Val) :
    mapCount (recvOnce env p n args).pool.oMessages h = mapCount p.oMessages h := by
  unfold recvOnce
  cases hf : hfind p.oMessagesOnce n with
  | none => simp
  | some l =>
    have := runList_oMessages_mapCount hA args l
      { p with oMessagesOnce := hdel p.oMessagesOnce n }
    simpa using this

theorem recvOnce_hOffN {env : Nat → HAction} {n0 : String} {h : Nat}
    (hA : envAvoidsH env h) (p : Pool) (n : String) (args : List Val)
    (hoff : hOffN p.oMessagesOnce n0 h) :
    hOffN (recvOnce env p n args).pool.oMessagesOnce n0 h := by
  unfold recvOnce
  cases hf : hfind p.oMessagesOnce n with
  | none => simpa using hoff
  | some l =>
    have hoff2 : hOffN (hdel p.oMessagesOnce n) n0 h := hOffN_hdel hoff
    simpa using runList_hOffN hA args l
      { p with oMessagesOnce := hdel p.oMessagesOnce n } hoff2

theorem recvOnce_callCount_zero_of_ne {env : Nat → HAction} {p : Pool} {n n0 : String}
    {h : Nat} (args : List Val) (hne : n ≠ n0) (hoff : hOffN p.oMessagesOnce n0 h) :
    callCount h (recvOnce env p n args).calls = 0 := by
  unfold recvOnce
  cases hf : hfind p.oMessagesOnce n with
  | none => simp [callCount]
  | some l =>
    have hc : countH l h = 0 := hoff (n, l) (hfind_mem hf) hne
    rw [runList_calls, callCount_filterMap]
    simpa using hc

theorem recv_budget {env : Nat → HAction} {h : Nat}
    (hA : envAvoidsH env h) (p : Pool) (n : String) (args : List Val)
    (hpers : mapCount p.oMessages h = 0) :
    callCount h (recv env p n args).calls
      + mapCount (recv env p n args).pool.oMessagesOnce h
      = mapCount p.oMessagesOnce h := by
  rw [recv_calls_def, recv_pool_def, callCount_append]
  have h1 := @recvPers_callCount_zero env _ n _ args hpers
  have h2 := recvOnce_budget hA (recvPers env p n args).pool n args
  have h3 := recvPers_oMessagesOnce_mapCount hA p n args
  omega

theorem recv_oMessages_mapCount {env : Nat → HAction} {h : Nat}
    (hA : envAvoidsH env h) (p : Pool) (n : String) (args : List Val) :
    mapCount (recv env p n args).pool.oMessages h = mapCount p.oMessages h := by
  rw [recv_pool_def]
  rw [recvOnce_oMessages_mapCount hA]
  exact recvPers_oMessages_mapCount hA p n args

theorem recv_hOffN {env : Nat → HAction} {n0 : String} {h : Nat}
    (hA : envAvoidsH env h) (p : Pool) (n : String) (args : List Val)
    (hoff : hOffN p.oMessagesOnce n0 h) :
    hOffN (recv env p n args).pool.oMessagesOnce n0 h := by
  rw [recv_pool_def]
  exact recvOnce_hOffN hA _ n args (recvPers_hOffN hA p n args hoff)

theorem recv_callCount_zero_of_ne {env : Nat → HAction} {p : Pool} {n n0 : String}
    {h : Nat} (hA : envAvoidsH env h) (args : List Val) (hne : n ≠ n0)
    (hpers : mapCount p.oMessages h = 0) (hoff : hOffN p.oMessagesOnce n0 h) :
    callCount h (recv env p n args).calls = 0 := by
  rw [recv_calls_def, callCount_append]
  have h1 := @recvPers_callCount_zero env _ n _ args hpers
  have h2 := @recvOnce_callCount_zero_of_ne env _ _ _ _ args hne
    (recvPers_hOffN hA p n args hoff)
  omega

theorem recvSeq_budget {env : Nat → HAction} {h : Nat} (hA : envAvoidsH env h) :
    ∀ (msgs : List (String × List Val)) (p : Pool),
    mapCount p.oMessages h = 0 →
    callCount h (recvSeq env p msgs).2 + mapCount (recvSeq env p msgs).1.oMessagesOnce h
      = mapCount p.oMessagesOnce h := by
  intro msgs
  induction msgs with
  | nil => intro p hpers; simp [recvSeq, callCount]
  | cons ms rest ih =>
    intro p hpers
    obtain ⟨n, args⟩ := ms
    have hstep := recv_budget hA p n args hpers
    have hpers2 : mapCount (recv env p n args).pool.oMessages h = 0 := by
      rw [recv_oMessages_mapCount hA]; exact hpers
    have hrest := ih (recv env p n args).pool hpers2
    simp [recvSeq, callCount_append]
    omega

theorem recvSeq_callCount_zero {env : Nat → HAction} {n0 : String} {h : Nat}
    (hA : envAvoidsH env h) :
    ∀ (msgs : List (String × List Val)) (p : Pool),
    mapCount p.oMessages h = 0 → hOffN p.oMessagesOnce n0 h →
    (∀ ms ∈ msgs, ms.1 ≠ n0) →
    callCount h (recvSeq env p msgs).2 = 0 := by
  intro msgs
  induction msgs with
  | nil => intro p _ _ _; simp [recvSeq, callCount]
  | cons ms rest ih =>
    intro p hpers hoff hnone
    obtain ⟨n, args⟩ := ms
    have hne : n ≠ n0 := hnone (n, args) (List.mem_cons_self _ _)
    have hstep := recv_callCount_zero_of_ne hA args hne hpers hoff
    have hpers2 : mapCount (recv env p n args).pool.oMessages h = 0 := by
      rw [recv_oMessages_mapCount hA]; exact hpers
    have hoff2 := recv_hOffN hA p n args hoff
    have hrest := ih (recv env p n args).pool hpers2 hoff2
      (fun ms hm => hnone ms (List.mem_cons_of_mem _ hm))
    simp [recvSeq, callCount_append]
    omega

theorem filterMap_id_map_some (t : List Nat) : (t.map some).filterMap id = t := by
  induction t with
  | nil => simp
  | cons a t ih => simp [ih]

theorem delLast_map_some_filterMap :
    ∀ {hs : List Nat} {h : Nat}, hs.Nodup → h ∈ hs →
    (delLast (hs.map some) h).filterMap id = hs.erase h := by
  intro hs
  induction hs with
  | nil => intro h _ hmem; simp at hmem
  | cons a t ih =>
    intro h hnd hmem
    have hat : a ∉ t := (List.nodup_cons.mp hnd).1
    have hndt : t.Nodup := (List.nodup_cons.mp hnd).2
    by_cases hht : h ∈ t
    · have hah : a ≠ h := fun he => hat (he ▸ hht)
      have hstep : delLast ((a :: t).map some) h = some a :: delLast (t.map some) h := by
        simp [delLast, hht]
      rw [hstep]
      simp [List.filterMap_cons, ih hndt hht, List.erase_cons, hah]
    · have hah : a = h := by
        rcases List.mem_cons.mp hmem with hh | hh
        · exact hh.symm
        · exact absurd hh hht
      subst hah
      have hstep : delLast ((a :: t).map some) a = none :: t.map some := by
        simp [delLast, hht]
      rw [hstep]
      simp [List.filterMap_cons, filterMap_id_map_some, List.erase_cons]

theorem hUnregisterOne_hfind {m : Handlers} {n : String} {l : HList} {h : Nat}
    (hf : hfind m n = some l) (hmem : some h ∈ l) :
    hfind (hUnregisterOne m n h).1 n = some (delLast l h) := by
  induction m with
  | nil => simp [hfind] at hf
  | cons e rest ih =>
    obtain ⟨k0, l0⟩ := e
    by_cases hk : k0 = n
    · subst hk
      simp [hfind] at hf
      subst hf
      simp [hUnregisterOne, hmem, hfind]
    · simp [hfind, hk] at hf
      simp [hUnregisterOne, hk, hfind, ih hf]

theorem hUnregisterOne_of_none {m : Handlers} {n : String} (h : Nat)
    (hf : hfind m n = none) : (hUnregisterOne m n h).1 = m := by
  induction m with
  | nil => simp [hUnregisterOne]
  | cons e rest ih =>
    obtain ⟨k0, l0⟩ := e
    by_cases hk : k0 = n
    · subst hk; simp [hfind] at hf
    · simp [hfind, hk] at hf
      simp [hUnregisterOne, hk, ih hf]

theorem runList_pure_pool (args : List Val) :
    ∀ (l : HList) (p : Pool), (runList pureEnv args p l).pool = p := by
  intro l
  induction l with
  | nil => intro p; rfl
  | cons x xs ih =>
    intro p
    cases x with
    | none => simpa [runList] using ih p
    | some k => simpa [runList, pureEnv, applyAction] using ih p

theorem delLast_ne_nil {l : HList} (h : Nat) (hl : l ≠ []) : delLast l h ≠ [] := by
  cases l with
  | nil => exact absurd rfl hl
  | cons x xs =>
    simp only [delLast]
    split_ifs <;> simp

theorem entriesNonEmpty_hRegister {m : Handlers} (hm : entriesNonEmpty m)
    (n : String) (h : Nat) : entriesNonEmpty (hRegister m n h) := by
  induction m with
  | nil =>
    intro e he
    simp [hRegister] at he
    simp [he]
  | cons e0 rest ih =>
    obtain ⟨k0, l0⟩ := e0
    have hm0 : l0 ≠ [] := hm (k0, l0) (List.mem_cons_self _ _)
    have hmrest : entriesNonEmpty rest := fun e he => hm e (List.mem_cons_of_mem _ he)
    by_cases hk : k0 = n
    · subst hk
      by_cases hmem : some h ∈ l0
      · simpa [hRegister, hmem] using hm
      · intro e he
        simp [hRegister, hmem] at he
        rcases he with he | he
        · simp [he]
        · exact hmrest e he
    · intro e he
      simp [hRegister, hk] at he
      rcases he with he | he
      · simp [he, hm0]
      · exact ih hmrest e he

theorem entriesNonEmpty_hdel {m : Handlers} (hm : entriesNonEmpty m) (n : String) :
    entriesNonEmpty (hdel m n) :=
  fun e he => hm e (hdel_subset he)

theorem entriesNonEmpty_hUnregisterOne {m : Handlers} (hm : entriesNonEmpty m)
    (n : String) (h : Nat) : entriesNonEmpty (hUnregisterOne m n h).1 := by
  induction m with
  | nil => intro e he; simp [hUnregisterOne] at he
  | cons e0 rest ih =>
    obtain ⟨k0, l0⟩ := e0
    have hm0 : l0 ≠ [] := hm (k0, l0) (List.mem_cons_self _ _)
    have hmrest : entriesNonEmpty rest := fun e he => hm e (List.mem_cons_of_mem _ he)
    by_cases hk : k0 = n
    · subst hk
      by_cases hmem : some h ∈ l0
      · intro e he
        simp [hUnregisterOne, hmem] at he
        rcases he with he | he
        · simp [he]
          exact delLast_ne_nil h hm0
        · exact hmrest e he
      · simpa [hUnregisterOne, hmem] using hm
    · intro e he
      simp [hUnregisterOne, hk] at he
      rcases he with he | he
      · simp [he, hm0]
      · exact ih hmrest e he

theorem applyAction_oMessages_entries (a : HAction) (p : Pool)
    (hm : entriesNonEmpty p.oMessages) :
    entriesNonEmpty (applyAction p a).1.oMessages := by
  cases a with
  | funcPure => exact hm
  | funcRegOnce n k => exact hm
  | funcPost n => exact hm
  | funcReg n k => exact entriesNonEmpty_hRegister hm n k

theorem runList_oMessages_entries (env : Nat → HAction) (args : List Val) :
    ∀ (l : HList) (p : Pool), entriesNonEmpty p.oMessages →
    entriesNonEmpty (runList env args p l).pool.oMessages := by
  intro l
  induction l with
  | nil => intro p hm; simpa [runList] using hm
  | cons x xs ih =>
    intro p hm
    cases x with
    | none => simpa [runList] using ih p hm
    | some k =>
      simpa [runList] using ih _ (applyAction_oMessages_entries (env k) p hm)

theorem recv_oMessages_entries (env : Nat → HAction) (p : Pool) (n : String)
    (args : List Val) (hm : entriesNonEmpty p.oMessages) :
    entriesNonEmpty (recv env p n args).pool.oMessages := by
  rw [recv_pool_def]
  have h1 : entriesNonEmpty (recvPers env p n args).pool.oMessages := by
    unfold recvPers
    cases hf : hfind p.oMessages n with
    | none => simpa using hm
    | some l => simpa using runList_oMessages_entries env args l p hm
  unfold recvOnce
  cases hf : hfind (recvPers env p n args).pool.oMessagesOnce n with
  | none => simpa using h1
  | some l =>
    simpa using runList_oMessages_entries env args l
      { (recvPers env p n args).pool with
        oMessagesOnce := hdel (recvPers env p n args).pool.oMessagesOnce n } h1

theorem execOp_oMessages_entries (env : Nat → HAction) (p : Pool) (op : PoolOp)
    (hm : entriesNonEmpty p.oMessages) :
    entriesNonEmpty (execOp env p op).oMessages := by
  cases op with
  | opInit n => exact hm
  | opRegister n h => exact entriesNonEmpty_hRegister hm n h
  | opRegisterOnce n h => exact hm
  | opUnregister n h =>
    cases h with
    | none => exact entriesNonEmpty_hdel hm n
    | some h => exact entriesNonEmpty_hUnregisterOne hm n h
  | opExcludeLog r names => exact hm
  | opRecv n args => exact recv_oMessages_entries env p n args hm
  | opReady b =>
    simp only [execOp, ready]
    split <;> exact hm

theorem execOps_oMessages_entries (env : Nat → HAction) :
    ∀ (ops : List PoolOp) (p : Pool), entriesNonEmpty p.oMessages →
    entriesNonEmpty (execOps env p ops).oMessages := by
  intro ops
  induction ops with
  | nil => intro p hm; exact hm
  | cons op rest ih =>
    intro p hm
    exact ih _ (execOp_oMessages_entries env p op hm)

theorem mkPool_entries : entriesNonEmpty mkPool.oMessages := by
  intro e he
  simp [mkPool, hRegister] at he
  simp [he]

theorem hasCrashes_false_of_entries {p : Pool} (n : String)
    (hm : entriesNonEmpty p.oMessages) : hasCrashes p n = false := by
  unfold hasCrashes has
  cases hf : hfind p.oMessages n with
  | none => simp
  | some l =>
    have hl : l ≠ [] := hm (n, l) (hfind_mem hf)
    have hpos : 0 < l.length := List.length_pos.mpr hl
    simp [hpos]

theorem syncElapseN_of_pending_false :
    ∀ (k : Nat) (s : SyncState), s.pending = false → syncElapseN k s = s := by
  intro k
  induction k with
  | zero => intro s _; rfl
  | succ k ih =>
    intro s hs
    have hstep : syncElapse s = s := by simp [syncElapse, hs]
    simp only [syncElapseN, hstep]
    exact ih s hs

theorem hfind_hRegister_notmem {m : Handlers} {n : String} {l : HList} {h : Nat}
    (hf : hfind m n = some l) (hnm : some h ∉ l) :
    hfind (hRegister m n h) n = some (l ++ [some h]) := by
  induction m with
  | nil => simp [hfind] at hf
  | cons e rest ih =>
    obtain ⟨k0, l0⟩ := e
    by_cases hk : k0 = n
    · subst hk
      simp [hfind] at hf
      subst hf
      simp [hRegister, hnm, hfind]
    · simp [hfind, hk] at hf
      simp [hRegister, hk, hfind, ih hf]

theorem countH_hRegister_self {m : Handlers} {n : String} {h : Nat}
    (h0 : countH ((hfind m n).getD []) h = 0) :
    countH ((hfind (hRegister m n h) n).getD []) h = 1 := by
  cases hf : hfind m n with
  | none =>
    rw [hfind_hRegister_of_none h hf]
    simp [countH]
  | some l =>
    rw [hf] at h0
    simp at h0
    have hnm : some h ∉ l := countH_eq_zero.mp h0
    rw [hfind_hRegister_notmem hf hnm]
    simp [countH_append, h0, countH]

theorem hfind_eq_none_of_not_mem_keys {m : Handlers} {n : String}
    (hn : n ∉ m.map Prod.fst) : hfind m n = none := by
  induction m with
  | nil => rfl
  | cons e rest ih =>
    obtain ⟨k0, l0⟩ := e
    have h1 : k0 ≠ n := by
      intro hk
      exact hn (by rw [List.map_cons, hk]; exact List.mem_cons_self _ _)
    have h2 : n ∉ rest.map Prod.fst := by
      intro hk
      exact hn (by rw [List.map_cons]; exact List.mem_cons_of_mem _ hk)
    simp [hfind, h1, ih h2]

theorem hfind_hdel_self {m : Handlers} {n : String}
    (hnd : (m.map Prod.fst).Nodup) : hfind (hdel m n) n = none := by
  induction m with
  | nil => rfl
  | cons e rest ih =>
    obtain ⟨k0, l0⟩ := e
    rw [List.map_cons] at hnd
    have h1 : k0 ∉ rest.map Prod.fst := (List.nodup_cons.mp hnd).1
    have h2 : (rest.map Prod.fst).Nodup := (List.nodup_cons.mp hnd).2
    by_cases hk : k0 = n
    · subst hk
      simp [hdel]
      exact hfind_eq_none_of_not_mem_keys h1
    · simp [hdel, hk, hfind, ih h2]

theorem recvPers_pure_pool (p : Pool) (n : String) (args : List Val) :
    (recvPers pureEnv p n args).pool = p := by
  unfold recvPers
  cases hf : hfind p.oMessages n with
  | none => rfl
  | some l => simp [runList_pure_pool]

theorem recvOnce_calls (env : Nat → HAction) (p : Pool) (n : String) (args : List Val) :
    (recvOnce env p n args).calls =
      (((hfind p.oMessagesOnce n).getD []).filterMap id).map (fun k => (k, args)) := by
  unfold recvOnce
  cases hf : hfind p.oMessagesOnce n with
  | none => simp
  | some l => simp [runList_calls]

theorem pureEnv_avoids (h : Nat) : envAvoidsH pureEnv h :=
  fun _ _ => ⟨fun hc => HAction.noConfusion hc, fun hc => HAction.noConfusion hc⟩

/-- C1: while the readiness flag is false, an inbound decoded message invokes
no handler, posts nothing and leaves the pool unchanged — it is only passed to
`messageLog` with the `'SKIP '` marker and discarded; with the flag true,
`onMessage` dispatches through `recv`, whose invocations are exactly the
handlers registered for the message's name (persistent then once, in order). -/
theorem claim_C1 (env : Nat → HAction) (p : Pool) (n : String) (args : List Val) :
    (p.bReady = false →
      onMessage env p (Except.ok (n, args)) =
        Except.ok { pool := p, calls := [], posts := [],
                    logs := messageLog p n args "SKIP " })
    ∧ (p.bReady = true →
      onMessage env p (Except.ok (n, args)) = Except.ok (recv env p n args))
    ∧ ((recv pureEnv p n args).calls =
        (((hfind p.oMessages n).getD []).filterMap id
          ++ ((hfind p.oMessagesOnce n).getD []).filterMap id).map (fun k => (k, args))) := by
  refine ⟨?_, ?_, ?_⟩
  · intro hr
    simp [onMessage, hr]
  · intro hr
    simp [onMessage, hr]
  · rw [recv_calls_def, List.map_append]
    rw [recvPers_calls]
    have hp : (recvPers pureEnv p n args).pool = p := recvPers_pure_pool p n args
    rw [hp, recvOnce_calls]

theorem claim_C1_witness :
    onMessage pureEnv mkPool (Except.ok ("a", [])) =
      Except.ok { pool := mkPool, calls := [], posts := [],
                  logs := messageLog mkPool "a" [] "SKIP " }
    ∧ onMessage pureEnv (ready mkPool true) (Except.ok ("a", [])) =
      Except.ok (recv pureEnv (ready mkPool true) "a" []) :=
  ⟨(claim_C1 pureEnv mkPool "a" []).1 rfl,
   (claim_C1 pureEnv (ready mkPool true) "a" []).2.1 rfl⟩

/-- C2 counterexample: toggling `ready` true → false → true on a fresh pool
invokes `bindEvent` twice, refuting "bound exactly once per pool lifetime". -/
theorem claim_C2_cex :
    (ready (ready (ready mkPool true) false) true).bindCount = 2
    ∧ (ready (ready (ready mkPool true) false) true).bindCount ≠ 1 :=
  ⟨rfl, by decide⟩

/-- C2 (amended): the pool binds to the transport's receive event on every
false→true transition of `ready`, not only the first — `ready(true)` while
already true is a no-op, `ready(false)` performs no bind and removes none,
but a later false→true transition performs another bind. -/
theorem claim_C2 (p : Pool) :
    (p.bReady = true → ready p true = p)
    ∧ (p.bReady = false →
        (ready p true).bindCount = p.bindCount + 1 ∧ (ready p true).bReady = true)
    ∧ (ready p false).bindCount = p.bindCount := by
  refine ⟨?_, ?_, ?_⟩
  · intro hr
    simp [ready, hr]
  · intro hr
    simp [ready, hr]
  · by_cases hr : p.bReady <;> simp [ready, hr]

theorem claim_C2_witness :
    ready (ready mkPool true) true = ready mkPool true
    ∧ ((ready mkPool true).bindCount = mkPool.bindCount + 1
        ∧ (ready mkPool true).bReady = true) :=
  ⟨(claim_C2 (ready mkPool true)).1 rfl, (claim_C2 mkPool).2.1 rfl⟩

/-- C5 counterexample: a malformed inbound payload (a `JSON.parse` failure) is
not caught at the receive boundary — `onMessage` propagates the exception and
nothing is handed to the log sink, refuting "caught ... and reported via the
log sink". -/
theorem claim_C5_cex :
    onMessage pureEnv mkPool (Except.error "SyntaxError: Unexpected token")
      = Except.error "SyntaxError: Unexpected token"
    ∧ exceptOk (onMessage pureEnv mkPool (Except.error "SyntaxError: Unexpected token"))
      = false :=
  ⟨rfl, rfl⟩

/-- C5 (amended): a decode failure propagates out of `onMessage` uncaught (the
source has no try/catch around `JSON.parse`); no handler is invoked, nothing
is logged, and no pool state is produced or modified by the call. -/
theorem claim_C5 (env : Nat → HAction) (p : Pool) (e : String) :
    onMessage env p (Except.error e) = Except.error e
    ∧ exceptOk (onMessage env p (Except.error e)) = false :=
  ⟨rfl, rfl⟩

/-- C6: a `send` whose target resolves to no window never reaches the
transport (no post is produced), only passes the message to `messageLog` with
the `'DROP '` marker (which writes the prefixed line for a non-excluded,
non-empty name), and touches no pool state; the modelled `send` is total, so
it never throws. -/
theorem claim_C6 (p : Pool) (pw : Option Nat) (t : SendTarget) (n : String)
    (args : List Val) (hres : resolveTarget pw t = none) :
    (send p pw t n args).2 = []
    ∧ (send p pw t n args).1 = messageLog p n args "DROP "
    ∧ (n ≠ "" → n ∉ p.aExcludeLog →
        (send p pw t n args).1 =
          [("[" ++ p.sName ++ "]: " ++ "DROP " ++ n
              ++ (if args.length = 0 then "" else " :"), args)]) := by
  refine ⟨?_, ?_, ?_⟩
  · simp [send, hres]
  · simp [send, hres]
  · intro h1 h2
    simp [send, hres, messageLog, h1, h2]

theorem claim_C6_witness :
    (send mkPool none SendTarget.nullTarget "a" []).2 = []
    ∧ (send mkPool none SendTarget.nullTarget "a" []).1
        = messageLog mkPool "a" [] "DROP "
    ∧ (send mkPool none SendTarget.nullTarget "a" []).1
        = [("[" ++ mkPool.sName ++ "]: " ++ "DROP " ++ "a"
              ++ (if ([] : List Val).length = 0 then "" else " :"), [])] :=
  ⟨(claim_C6 mkPool none SendTarget.nullTarget "a" [] rfl).1,
   (claim_C6 mkPool none SendTarget.nullTarget "a" [] rfl).2.1,
   (claim_C6 mkPool none SendTarget.nullTarget "a" [] rfl).2.2 (by decide) (by decide)⟩

/-- C7 counterexample: a ping is sent immediately at construction and another
each time a retry interval elapses, so once 3 retry intervals have elapsed 4
pings have been sent, refuting "exactly 3 pings". -/
theorem claim_C7_cex :
    (syncElapseN 3 (syncCreate mkPool)).pings = 4
    ∧ (syncElapseN 3 (syncCreate mkPool)).pings ≠ 3 :=
  ⟨rfl, by decide⟩

/-- C7 (amended): against a target that never answers with a pong, the session
sends one ping at creation and one more per elapsed retry interval (3 pings
once 2 intervals have elapsed, 4 once 3 have); the callback has not fired;
`cancel()` at that point clears the pending timer, so however much further
time elapses no additional ping is ever sent and the callback never fires. -/
theorem claim_C7 (p : Pool) (k : Nat) :
    (syncCreate p).pings = 1
    ∧ (syncElapseN 2 (syncCreate p)).pings = 3
    ∧ (syncElapseN 3 (syncCreate p)).pings = 4
    ∧ (syncElapseN 3 (syncCreate p)).fired = false
    ∧ (syncCancel (syncElapseN 3 (syncCreate p))).pending = false
    ∧ (syncCancel (syncElapseN 3 (syncCreate p))).iSync = none
    ∧ (syncElapseN k (syncCancel (syncElapseN 3 (syncCreate p)))).pings = 4
    ∧ (syncElapseN k (syncCancel (syncElapseN 3 (syncCreate p)))).fired = false := by
  have hstay : syncElapseN k (syncCancel (syncElapseN 3 (syncCreate p)))
      = syncCancel (syncElapseN 3 (syncCreate p)) :=
    syncElapseN_of_pending_false k _ rfl
  refine ⟨rfl, rfl, rfl, rfl, rfl, rfl, ?_, ?_⟩
  · rw [hstay]
    rfl
  · rw [hstay]
    rfl

/-- C8 counterexample: the `MessagePool` of the unnamed source (cited by the
claim) registers no `"evPing"` handler at construction, refuting "every
Message Pool registers, at construction time"; and the one `"evPong"` produced
by dispatching `"evPing"` on the ready globals pool is not posted to any
addressed sender window (such as a sender in window 2) — `post` delivers to
the pool's own context — refuting "posted back to the sender's context" in a
cross-window deployment. -/
theorem claim_C8_cex :
    hfind (mkPoolU none).oMessages "evPing" = none
    ∧ (PostDest.toWindow 2, "evPong", ([] : List Val))
        ∉ (recv envPing (ready mkPool true) "evPing" []).posts :=
  ⟨rfl, by decide⟩

/-- C8 (amended): the `cMessagePool` constructor registers the built-in
`onPing` handler persistently for `"evPing"`, but the unnamed source's
`MessagePool` constructor registers nothing — there the handler is registered
only when `synchronize` is called; dispatching `"evPing"` on the ready
globals pool invokes `onPing` exactly once, which responds with exactly one
`"evPong"` posted via `post` to the pool's own context
(`postMessage(platform, ...)`), not addressed to the sender's window. -/
theorem claim_C8 (pongClosureId : Nat) :
    hfind mkPool.oMessages "evPing" = some [some pingHandlerId]
    ∧ hfind (mkPoolU none).oMessages "evPing" = none
    ∧ hfind (synchronizeU (mkPoolU none) pongClosureId).oMessages "evPing"
        = some [some pingHandlerId]
    ∧ (ready mkPool true).bReady = true
    ∧ (recv envPing (ready mkPool true) "evPing" []).posts
        = [(PostDest.ownWindow, "evPong", [])]
    ∧ (recv envPing (ready mkPool true) "evPing" []).calls = [(pingHandlerId, [])] :=
  ⟨rfl, rfl, rfl, rfl, rfl, rfl⟩

/-- C9 counterexample: in exactly the state the claim describes —
`register(n, h)` was called, `registerOnce` never — `has(n)` returns the
boolean `true` and does not throw, because the `oMessages[n].length > 0`
disjunct short-circuits before `oMessagesOnce[n]` is ever read. -/
theorem claim_C9_cex :
    has (register mkPool "a" 7) "a" = Except.ok true
    ∧ hasCrashes (register mkPool "a" 7) "a" = false :=
  ⟨rfl, rfl⟩

/-- C9 (amended): in every pool state reachable from construction through the
public API, `has` returns a boolean and never throws; in particular right
after `register(n, h)` it returns `true`.  The unguarded read of
`oMessagesOnce[n].length` is unreachable because an array stored in
`oMessages` is never empty (`register` creates it non-empty, and deletions
either remove the key or leave a hole without shrinking `length`). -/
theorem claim_C9 (env : Nat → HAction) (ops : List PoolOp) (p : Pool) (n : String)
    (h : Nat) :
    hasCrashes (execOps env mkPool ops) n = false
    ∧ has (register p n h) n = Except.ok true := by
  constructor
  · exact hasCrashes_false_of_entries n
      (execOps_oMessages_entries env ops mkPool mkPool_entries)
  · obtain ⟨l, hl, hmem⟩ := hfind_hRegister_self p.oMessages n h
    have hlne : l ≠ [] := by
      intro he
      subst he
      simp at hmem
    have hpos : 0 < l.length := List.length_pos.mpr hlne
    simp [has, register, hl, hpos]

/-- C3: a handler registered once via `registerOnce(n, h)` — starting from a
state in which `h` is not registered anywhere, with handler behaviours that
never re-register `h` — is invoked at most once across any sequence of
dispatches, and not at all if `n` is never dispatched; and since the
once-entries for `n` are snapshotted and cleared before their handlers run, a
once-handler whose behaviour `registerOnce`-registers a new handler for `n`
does not get that new handler run in the same dispatch: it is deferred to the
next occurrence of `n`. -/
theorem claim_C3 (env : Nat → HAction) (p : Pool) (n : String) (h : Nat) :
    (∀ msgs, envAvoidsH env h →
      mapCount p.oMessages h = 0 → mapCount p.oMessagesOnce h = 0 →
      callCount h (recvSeq env (registerOnce p n h) msgs).2 ≤ 1)
    ∧ (∀ msgs, envAvoidsH env h →
      mapCount p.oMessages h = 0 → mapCount p.oMessagesOnce h = 0 →
      (∀ ms ∈ msgs, ms.1 ≠ n) →
      callCount h (recvSeq env (registerOnce p n h) msgs).2 = 0)
    ∧ (∀ (h0 h1 : Nat) (args : List Val),
      env h0 = HAction.funcRegOnce n h1 →
      hfind p.oMessages n = none →
      hfind p.oMessagesOnce n = some [some h0] →
      (p.oMessagesOnce.map Prod.fst).Nodup →
      (recv env p n args).calls = [(h0, args)]
      ∧ hfind (recv env p n args).pool.oMessagesOnce n = some [some h1]
      ∧ (recv env (recv env p n args).pool n args).calls = [(h1, args)]) := by
  refine ⟨?_, ?_, ?_⟩
  · intro msgs hA hp ho
    have hp' : mapCount (registerOnce p n h).oMessages h = 0 := by
      simpa [registerOnce] using hp
    have hb := recvSeq_budget hA msgs (registerOnce p n h) hp'
    have h2 := mapCount_hRegister_le p.oMessagesOnce n h
    have hle : mapCount (registerOnce p n h).oMessagesOnce h
        ≤ mapCount p.oMessagesOnce h + 1 := by
      simpa [registerOnce] using h2
    omega
  · intro msgs hA hp ho hnone
    have hp' : mapCount (registerOnce p n h).oMessages h = 0 := by
      simpa [registerOnce] using hp
    have hoff0 : hOffN p.oMessagesOnce n h := fun e he _ => mapCount_eq_zero.mp ho e he
    have hoff : hOffN (registerOnce p n h).oMessagesOnce n h := by
      simpa [registerOnce] using hOffN_hRegister_self hoff0 h
    exact recvSeq_callCount_zero hA msgs (registerOnce p n h) hp' hoff hnone
  · intro h0 h1 args henv hfp hfo hnd
    have hpers_pool : (recvPers env p n args).pool = p := by
      simp [recvPers, hfp]
    have hpers_calls : (recvPers env p n args).calls = [] := by
      simp [recvPers, hfp]
    have honce : recvOnce env p n args =
        { pool := { p with oMessagesOnce := hRegister (hdel p.oMessagesOnce n) n h1 },
          calls := [(h0, args)], posts := [] } := by
      simp [recvOnce, hfo, runList, applyAction, henv]
    have hcalls1 : (recv env p n args).calls = [(h0, args)] := by
      rw [recv_calls_def, hpers_calls, hpers_pool, honce]
      simp
    have hpool : (recv env p n args).pool
        = { p with oMessagesOnce := hRegister (hdel p.oMessagesOnce n) n h1 } := by
      rw [recv_pool_def, hpers_pool, honce]
    have hdelnone : hfind (hdel p.oMessagesOnce n) n = none := hfind_hdel_self hnd
    have hfind1 : hfind (recv env p n args).pool.oMessagesOnce n = some [some h1] := by
      rw [hpool]
      simpa using hfind_hRegister_of_none h1 hdelnone
    have hq_pers : hfind (recv env p n args).pool.oMessages n = none := by
      rw [hpool]
      simpa using hfp
    have h2pers_pool : (recvPers env (recv env p n args).pool n args).pool
        = (recv env p n args).pool := by
      simp [recvPers, hq_pers]
    have h2pers_calls : (recvPers env (recv env p n args).pool n args).calls = [] := by
      simp [recvPers, hq_pers]
    have h2once_calls : (recvOnce env (recv env p n args).pool n args).calls
        = [(h1, args)] := by
      rw [recvOnce_calls, hfind1]
      simp
    refine ⟨hcalls1, hfind1, ?_⟩
    rw [recv_calls_def, h2pers_calls, h2pers_pool, h2once_calls]
    simp

theorem claim_C3_witness :
    callCount 7 (recvSeq pureEnv (registerOnce mkPool "a" 7) [("a", []), ("a", [])]).2 ≤ 1
    ∧ callCount 7 (recvSeq pureEnv (registerOnce mkPool "a" 7) [("b", [])]).2 = 0
    ∧ (recv (fun k => if k = 5 then HAction.funcRegOnce "a" 6 else HAction.funcPure)
        (registerOnce mkPool "a" 5) "a" []).calls = [(5, [])] :=
  ⟨(claim_C3 pureEnv mkPool "a" 7).1 [("a", []), ("a", [])] (pureEnv_avoids 7)
      (by decide) (by decide),
   (claim_C3 pureEnv mkPool "a" 7).2.1 [("b", [])] (pureEnv_avoids 7)
      (by decide) (by decide) (by decide),
   ((claim_C3 (fun k => if k = 5 then HAction.funcRegOnce "a" 6 else HAction.funcPure)
      (registerOnce mkPool "a" 5) "a" 7).2.2 5 6 [] rfl (by decide) (by decide)
      (by decide)).1⟩

/-- C4: registering the same handler reference twice for the same name leaves
the registry literally identical to registering it once (for both `register`
and `registerOnce`); a second, distinct handler reference is kept alongside
the first; and after the duplicate registration a dispatch of the name
invokes the handler exactly once. -/
theorem claim_C4 (p : Pool) (n : String) (h : Nat) :
    register (register p n h) n h = register p n h
    ∧ registerOnce (registerOnce p n h) n h = registerOnce p n h
    ∧ (∀ h2, ∃ l, hfind (register (register p n h) n h2).oMessages n = some l
        ∧ some h ∈ l ∧ some h2 ∈ l)
    ∧ (∀ env args, envAvoidsH env h →
        countH ((hfind p.oMessages n).getD []) h = 0 →
        mapCount p.oMessagesOnce h = 0 →
        callCount h (recv env (register (register p n h) n h) n args).calls = 1) := by
  have hidem : register (register p n h) n h = register p n h := by
    simp [register, hRegister_idem]
  refine ⟨hidem, by simp [registerOnce, hRegister_idem], ?_, ?_⟩
  · intro h2
    obtain ⟨l1, hl1, hm1⟩ := hfind_hRegister_self p.oMessages n h
    obtain ⟨l', hl', hm'⟩ := hfind_hRegister_mem_of_mem hl1 hm1 h2
    obtain ⟨l2, hl2, hm2⟩ := hfind_hRegister_self (hRegister p.oMessages n h) n h2
    have heq : l2 = l' := by
      rw [hl2] at hl'
      exact Option.some.inj hl'
    exact ⟨l', by simpa [register] using hl', hm', heq ▸ hm2⟩
  · intro env args hA h0 h1
    rw [hidem, recv_calls_def, callCount_append]
    have hpers : callCount h (recvPers env (register p n h) n args).calls = 1 := by
      rw [recvPers_calls, callCount_filterMap]
      simpa [register] using countH_hRegister_self h0
    have honce0 : mapCount (register p n h).oMessagesOnce h = 0 := by
      simpa [register] using h1
    have honce1 : mapCount (recvPers env (register p n h) n args).pool.oMessagesOnce h
        = 0 := by
      rw [recvPers_oMessagesOnce_mapCount hA]
      exact honce0
    have hb := recvOnce_budget hA (recvPers env (register p n h) n args).pool n args
    omega

theorem claim_C4_witness :
    register (register mkPool "a" 7) "a" 7 = register mkPool "a" 7
    ∧ callCount 7 (recv pureEnv (register (register mkPool "a" 7) "a" 7) "a" []).calls
        = 1 :=
  ⟨(claim_C4 mkPool "a" 7).1,
   (claim_C4 mkPool "a" 7).2.2.2 pureEnv [] (pureEnv_avoids 7) (by decide) (by decide)⟩

/-- C10: after `unregister(n, h)` removes one of several persistent handlers
by deleting its array index (leaving a hole), dispatching `n` invokes exactly
the remaining handlers, each once, in their original insertion order; the
removed handler is not invoked and the hole is skipped rather than applied. -/
theorem claim_C10 (p : Pool) (n : String) (h : Nat) (hs : List Nat) (args : List Val)
    (hf : hfind p.oMessages n = some (hs.map some))
    (hnd : hs.Nodup) (hmem : h ∈ hs)
    (hfo : hfind p.oMessagesOnce n = none) :
    (recv pureEnv (unregister p n (some h)).1 n args).calls
      = (hs.erase h).map (fun k => (k, args))
    ∧ (h, args) ∉ (recv pureEnv (unregister p n (some h)).1 n args).calls := by
  have hmemO : some h ∈ hs.map some := List.mem_map_of_mem _ hmem
  have hq1 : hfind (unregister p n (some h)).1.oMessages n
      = some (delLast (hs.map some) h) := by
    simp only [unregister]
    simpa using hUnregisterOne_hfind hf hmemO
  have hq2 : (unregister p n (some h)).1.oMessagesOnce = p.oMessagesOnce := by
    simp only [unregister]
    simpa using hUnregisterOne_of_none h hfo
  have hcalls : (recv pureEnv (unregister p n (some h)).1 n args).calls
      = (hs.erase h).map (fun k => (k, args)) := by
    rw [recv_calls_def, recvPers_calls, recvPers_pure_pool, recvOnce_calls, hq1, hq2, hfo]
    simp [delLast_map_some_filterMap hnd hmem]
  refine ⟨hcalls, ?_⟩
  rw [hcalls]
  intro hcon
  obtain ⟨k, hk1, hk2⟩ := List.mem_map.mp hcon
  have hkh : k = h := by
    simpa using congrArg Prod.fst hk2
  subst hkh
  exact ((List.Nodup.mem_erase_iff hnd).mp hk1).1 rfl

theorem claim_C10_witness :
    (recv pureEnv (unregister
        (register (register (register mkPool "a" 1) "a" 2) "a" 3) "a" (some 2)).1
      "a" []).calls
      = (([1, 2, 3] : List Nat).erase 2).map (fun k => (k, ([] : List Val)))
    ∧ ((2 : Nat), ([] : List Val)) ∉ (recv pureEnv (unregister
        (register (register (register mkPool "a" 1) "a" 2) "a" 3) "a" (some 2)).1
      "a" []).calls :=
  ⟨(claim_C10 (register (register (register mkPool "a" 1) "a" 2) "a" 3) "a" 2 [1, 2, 3]
      [] (by decide) (by decide) (by decide) (by decide)).1,
   (claim_C10 (register (register (register mkPool "a" 1) "a" 2) "a" 3) "a" 2 [1, 2, 3]
      [] (by decide) (by decide) (by decide) (by decide)).2⟩

end JsMessage
